import Mathlib

/-
Verification of the Shamos-Hoey polygon-simplicity core of the
simple-features library.

The embedding follows src/lib/util/sweep/ShamosHoey.ts and the SweepLine /
SegmentComparator classes.  Components of the repository that are not part
of the provided sources (the event queue, the red-black tree behind the
status structure, the LineString / Segment / Event records and the
point-in-ring primitive) are modelled from the specification; each such
definition carries a doc comment starting with "Modelled from the spec:".

Numbers: coordinates are modelled as exact rationals.  The comparator's
y-at-x computation divides and can therefore produce the IEEE special
values (infinities from division by zero on vertical segments, NaN from
0/0 and from arithmetic on infinities); these are modelled explicitly by
the carrier type FP below.  Rounding is not modelled: every concrete input
appearing in the claims uses small integer coordinates on which all the
floating-point operations performed by the code are exact.
-/

namespace SF

/-- Modelled from the spec: a Point is (x, y); z and m are excluded from the
equality and arithmetic used by the sweep (spec, section 3), so they are
omitted from the model. -/
structure Pt where
  x : ℚ
  y : ℚ
deriving DecidableEq, Repr

/-- Modelled from the spec: a ring is an ordered sequence of points; the
LineString class (not among the provided sources) is the carrier used by
ShamosHoey.simplePolygonLineStrings. -/
structure LineString where
  points : List Pt
deriving DecidableEq, Repr

/-- Modelled from the spec: numPoints() is the count of points of the ring. -/
def LineString.numPoints (ls : LineString) : Nat :=
  ls.points.length

/-- Modelled from the spec: a Segment is derived from an edge -
(ringId, edgeId, leftPoint, rightPoint), left and right assigned by XY
lexicographic order.  The mutable above and below neighbor references are
held separately in the sweep state (they are plain positional relations,
spec section 3). -/
structure Segment where
  edge : Nat
  ring : Nat
  leftPoint : Pt
  rightPoint : Pt
deriving DecidableEq, Repr

/-- Modelled from the spec: an event is (point, ringId, edgeId, type). -/
inductive EventType where
  | left
  | right
deriving DecidableEq, Repr

/-- Modelled from the spec: an event is (point, ringId, edgeId, type); a Left
event carries the edge's left point, a Right event its right point. -/
structure Event where
  point : Pt
  ring : Nat
  edge : Nat
  type : EventType
deriving DecidableEq, Repr

/-- SFException, the fatal internal error of the library; carries a message. -/
structure SFException where
  message : String
deriving DecidableEq, Repr

/-- Exact product of two rationals, computed on numerators and
denominators.  The lemma qmul_eq below proves it is multiplication of ℚ;
this formulation is used because it evaluates by kernel reduction. -/
def qmul (a b : ℚ) : ℚ :=
  Rat.divInt (a.num * b.num) (a.den * b.den)

/-- Exact sum of two rationals, computed on numerators and denominators;
qadd_eq below proves it is addition of ℚ. -/
def qadd (a b : ℚ) : ℚ :=
  Rat.divInt (a.num * b.den + b.num * a.den) (a.den * b.den)

/-- Exact difference of two rationals, computed on numerators and
denominators; qsub_eq below proves it is subtraction of ℚ. -/
def qsub (a b : ℚ) : ℚ :=
  Rat.divInt (a.num * b.den - b.num * a.den) (a.den * b.den)

/-- Exact quotient of two rationals, computed on numerators and
denominators; qdiv_eq below proves it is division of ℚ on a non-zero
divisor (callers guard the zero divisor case separately, as the source's
doubles produce infinities and NaN there). -/
def qdiv (a b : ℚ) : ℚ :=
  Rat.divInt (a.num * b.den) (a.den * b.num)

/-- Carrier for the values produced by the comparator's y-at-x computation:
an exact finite value, one of the two infinities, or NaN.  The operations
below follow IEEE-754 semantics on these values; finite arithmetic is exact
(no rounding is modelled). -/
inductive FP where
  | fin : ℚ → FP
  | pinf : FP
  | ninf : FP
  | nan : FP
deriving DecidableEq, Repr

namespace FP

/-- IEEE negation on the modelled values. -/
def negF : FP → FP
  | fin a => fin (qsub 0 a)
  | pinf => ninf
  | ninf => pinf
  | nan => nan

/-- IEEE addition: finite addition is exact, opposite infinities give NaN,
NaN propagates. -/
def add : FP → FP → FP
  | nan, _ => nan
  | _, nan => nan
  | fin a, fin b => fin (qadd a b)
  | fin _, pinf => pinf
  | pinf, fin _ => pinf
  | fin _, ninf => ninf
  | ninf, fin _ => ninf
  | pinf, pinf => pinf
  | ninf, ninf => ninf
  | pinf, ninf => nan
  | ninf, pinf => nan

/-- IEEE subtraction as addition of the negation. -/
def sub (a b : FP) : FP :=
  add a (negF b)

/-- IEEE multiplication: zero times an infinity is NaN, NaN propagates,
signs of infinities follow the sign rules. -/
def mul : FP → FP → FP
  | nan, _ => nan
  | _, nan => nan
  | fin a, fin b => fin (qmul a b)
  | fin a, pinf => if 0 < a then pinf else if a < 0 then ninf else nan
  | fin a, ninf => if 0 < a then ninf else if a < 0 then pinf else nan
  | pinf, fin b => if 0 < b then pinf else if b < 0 then ninf else nan
  | ninf, fin b => if 0 < b then ninf else if b < 0 then pinf else nan
  | pinf, pinf => pinf
  | pinf, ninf => ninf
  | ninf, pinf => ninf
  | ninf, ninf => pinf

/-- IEEE less-than: any comparison involving NaN is false. -/
def lt : FP → FP → Bool
  | nan, _ => false
  | _, nan => false
  | fin a, fin b => a < b
  | ninf, fin _ => true
  | fin _, pinf => true
  | ninf, pinf => true
  | _, _ => false

end FP

/-- IEEE division of two exact finite values: division by zero yields a
signed infinity, zero over zero yields NaN.  This is the slope computation
(rightY - leftY) / (rightX - leftX) of SweepLine.yValueAtX; both operands
of that division are always finite. -/
def finDiv (a b : ℚ) : FP :=
  if b ≠ 0 then FP.fin (qdiv a b)
  else if 0 < a then FP.pinf
  else if a < 0 then FP.ninf
  else FP.nan

namespace SweepLine

/-- XY lexicographic order of two points, from SweepLine.xyOrder: +1 if
point1 is greater, -1 if smaller, 0 if equal on x and y. -/
def xyOrder (point1 point2 : Pt) : Int :=
  if point1.x > point2.x then 1
  else if point1.x < point2.x then -1
  else if point1.y > point2.y then 1
  else if point1.y < point2.y then -1
  else 0

/-- Segment y value at the x location by calculating the line slope, from
SweepLine.yValueAtX: m = (right.y - left.y) / (right.x - left.x),
b = left.y - m * left.x, result m * x + b.  On a vertical segment the
division by zero produces an infinity and the subsequent arithmetic
produces NaN, exactly as the doubles of the source do. -/
def yValueAtX (segment : Segment) (x : ℚ) : FP :=
  let m := finDiv (qsub segment.rightPoint.y segment.leftPoint.y)
                  (qsub segment.rightPoint.x segment.leftPoint.x)
  let b := FP.sub (FP.fin segment.leftPoint.y) (FP.mul m (FP.fin segment.leftPoint.x))
  FP.add (FP.mul m (FP.fin x)) b

/-- Check where point2 is relative to the line from point0 to point1, from
SweepLine.isLeftPoints: positive if left, 0 if on, negative if right. -/
def isLeftPoints (point0 point1 point2 : Pt) : ℚ :=
  qsub (qmul (qsub point1.x point0.x) (qsub point2.y point0.y))
    (qmul (qsub point2.x point0.x) (qsub point1.y point0.y))

/-- Check where the point is relative to the line segment, from
SweepLine.isLeft. -/
def isLeft (segment : Segment) (point : Pt) : ℚ :=
  isLeftPoints segment.leftPoint segment.rightPoint point

end SweepLine

/-- Pure comparison of two segments at a given sweep x, the body of
SegmentComparator.compare after the x-is-set check: order by y value at x,
then by ring, then by edge.  The source's double comparisons y1 < y2 are
the FP comparisons (false on NaN). -/
def compareAt (x : ℚ) (segment1 segment2 : Segment) : Int :=
  let y1 := SweepLine.yValueAtX segment1 x
  let y2 := SweepLine.yValueAtX segment2 x
  if FP.lt y1 y2 then -1
  else if FP.lt y2 y1 then 1
  else if segment1.ring < segment2.ring then -1
  else if segment2.ring < segment1.ring then 1
  else if segment1.edge < segment2.edge then -1
  else if segment2.edge < segment1.edge then 1
  else 0

namespace SegmentComparator

/-- SegmentComparator.compare: with no current sweep x set it throws
SFException "X value not set"; otherwise it returns the comparison value.
The thrown exception is modelled as the error channel of Except, distinct
from any returned value. -/
def compare (x : Option ℚ) (segment1 segment2 : Segment) : Except SFException Int :=
  match x with
  | none => .error ⟨"X value not set"⟩
  | some xv => .ok (compareAt xv segment1 segment2)

end SegmentComparator

/-- Log of the structural operations performed on the status structure,
recording for each one the segment's (ring, edge) key and the comparator's
current sweep x at the moment of the call.  This is pure observation of the
calls the source makes; it does not influence any computed value. -/
inductive LogEntry where
  | insertOp (ring edge : Nat) (x : Option ℚ)
  | removeOp (ring edge : Nat) (x : Option ℚ)
deriving DecidableEq, Repr

/-- Modelled from the spec: the status structure (ExtendedRedBlackTree, not
among the provided sources) is a balanced search tree ordered by the
segment comparator, supporting insert, find, predecessor, successor and
remove (spec, section 4.4).  Rotations of a balanced tree preserve its
in-order sequence, so the tree is modelled by that sequence; each operation
searches with the comparator at the sweep x in effect for that call. -/
def treeInsert (x : ℚ) (segment : Segment) : List Segment → List Segment
  | [] => [segment]
  | t :: ts =>
    if compareAt x segment t < 0 then segment :: t :: ts
    else t :: treeInsert x segment ts

/-- Modelled from the spec: findNode locates the node whose value compares
equal to the argument under the current sweep x; here, the index of the
first comparator-equal element of the in-order sequence. -/
def treeFindIdx (x : ℚ) (segment : Segment) (tree : List Segment) : Option Nat :=
  tree.findIdx? (fun t => compareAt x segment t = 0)

/-- Modelled from the spec: remove(segment) deletes the comparator-equal
node if present and reports whether a node was removed.  An empty tree
involves no comparison; a non-empty tree compares, which requires the sweep
x to be set (otherwise the comparator throws). -/
def treeRemove (x : Option ℚ) (segment : Segment) (tree : List Segment) :
    Except SFException (Bool × List Segment) :=
  match tree with
  | [] => .ok (false, [])
  | _ =>
    match x with
    | none => .error ⟨"X value not set"⟩
    | some xv =>
      match treeFindIdx xv segment tree with
      | none => .ok (false, tree)
      | some i => .ok (true, tree.eraseIdx i)

/-- State of one SweepLine invocation: the comparator's current sweep x,
the status structure (as its in-order sequence), the above/below neighbor
references of every created segment keyed by (ring, edge), the segment
registry keyed by (ring, edge), and the operation log. -/
structure SweepState where
  compX : Option ℚ
  tree : List Segment
  nbr : List ((Nat × Nat) × (Option Segment × Option Segment))
  registry : List ((Nat × Nat) × Segment)
  log : List LogEntry
deriving DecidableEq, Repr

/-- Starting state of a sweep: no x set, empty tree, no segments. -/
def initState : SweepState :=
  ⟨none, [], [], [], []⟩

/-- Above/below neighbor references of the segment with the given key;
a segment starts with neither reference set. -/
def getNbr (st : SweepState) (k : Nat × Nat) : Option Segment × Option Segment :=
  match st.nbr.find? (fun e => e.1 = k) with
  | some e => e.2
  | none => (none, none)

/-- Apply an update to the neighbor record of the segment with the given
key (the segment objects are shared, so an update through any reference is
visible through all of them). -/
def nbrUpdate (k : Nat × Nat)
    (f : Option Segment × Option Segment → Option Segment × Option Segment) :
    List ((Nat × Nat) × (Option Segment × Option Segment)) →
    List ((Nat × Nat) × (Option Segment × Option Segment)) :=
  List.map (fun e => if e.1 = k then (e.1, f e.2) else e)

namespace SweepLine

/-- SweepLine.createSegment: read the edge's two endpoints from the ring,
assign left and right by XY order (on a tie the second point becomes the
left one, as in the source's else branch). -/
def createSegment (rings : List LineString) (event : Event) : Segment :=
  let ring := rings.getD event.ring ⟨[]⟩
  let points := ring.points
  let point1 := points.getD event.edge ⟨0, 0⟩
  let point2 := points.getD ((event.edge + 1) % points.length) ⟨0, 0⟩
  if xyOrder point1 point2 < 0 then ⟨event.edge, event.ring, point1, point2⟩
  else ⟨event.edge, event.ring, point2, point1⟩

/-- SweepLine.add: set the comparator x to the event point's x, insert the
new segment into the tree, locate its node (throwing SFException "Segment
not found" if absent), wire the above/below references with its successor
and predecessor, and register the segment under (ring, edge). -/
def add (rings : List LineString) (st : SweepState) (event : Event) :
    Except SFException (Segment × SweepState) :=
  let segment := createSegment rings event
  let x := event.point.x
  let tree1 := treeInsert x segment st.tree
  let log1 := st.log ++ [LogEntry.insertOp segment.ring segment.edge (some x)]
  match treeFindIdx x segment tree1 with
  | none => .error ⟨"Segment not found"⟩
  | some i =>
    let key := (segment.ring, segment.edge)
    let next := tree1.get? (i + 1)
    let previous := if i = 0 then none else tree1.get? (i - 1)
    let nbr0 := (key, ((none : Option Segment), (none : Option Segment))) :: st.nbr
    let nbr1 :=
      match next with
      | some n =>
        nbrUpdate (n.ring, n.edge) (fun p => (p.1, some segment))
          (nbrUpdate key (fun p => (some n, p.2)) nbr0)
      | none => nbr0
    let nbr2 :=
      match previous with
      | some p =>
        nbrUpdate (p.ring, p.edge) (fun q => (some segment, q.2))
          (nbrUpdate key (fun q => (q.1, some p)) nbr1)
      | none => nbr1
    let registry1 := (key, segment) :: st.registry
    .ok (segment, ⟨some x, tree1, nbr2, registry1, log1⟩)

/-- SweepLine.find: look the event's segment up in the registry, throwing
SFException "Segment not found" if absent. -/
def find (st : SweepState) (event : Event) : Except SFException Segment :=
  match st.registry.find? (fun e => e.1 = (event.ring, event.edge)) with
  | none => .error ⟨"Segment not found"⟩
  | some e => .ok e.2

/-- SweepLine.intersect: false if either argument is absent; consecutive
edges of the same ring are excluded (in the source the modulus is taken
with the ring's point count, and a zero count makes the JavaScript modulus
NaN, which never tests equal, hence the explicit non-zero conjunct);
otherwise the double-sided straddle test on cross-product signs. -/
def intersect (rings : List LineString) :
    Option Segment → Option Segment → Bool
  | some segment1, some segment2 =>
    let n := (rings.getD segment1.ring ⟨[]⟩).numPoints
    let consecutive : Bool :=
      segment1.ring = segment2.ring ∧ n ≠ 0 ∧
        ((segment1.edge + 1) % n = segment2.edge ∨
          segment1.edge = (segment2.edge + 1) % n)
    if consecutive then false
    else
      let l1 := isLeft segment1 segment2.leftPoint
      let r1 := isLeft segment1 segment2.rightPoint
      if qmul l1 r1 ≤ 0 then
        let l2 := isLeft segment2 segment1.leftPoint
        let r2 := isLeft segment2 segment1.rightPoint
        decide (qmul l2 r2 ≤ 0)
      else false
  | _, _ => false

/-- SweepLine.remove: attempt a tree removal under the comparator x
currently in effect; if that removal succeeded, set the comparator x to
the segment's left point x and attempt the removal again; only if the
final attempt reports success splice the above/below neighbors and delete
the registry entry. -/
def remove (st : SweepState) (segment : Segment) : Except SFException SweepState :=
  let key := (segment.ring, segment.edge)
  match treeRemove st.compX segment st.tree with
  | .error e => .error e
  | .ok (r1, tree1) =>
    let st1 : SweepState :=
      ⟨st.compX, tree1, st.nbr, st.registry,
        st.log ++ [LogEntry.removeOp segment.ring segment.edge st.compX]⟩
    let step2 : Except SFException (Bool × SweepState) :=
      if r1 then
        let x2 : Option ℚ := some segment.leftPoint.x
        match treeRemove x2 segment tree1 with
        | .error e => .error e
        | .ok (r2, tree2) =>
          .ok (r2, ⟨x2, tree2, st1.nbr, st1.registry,
            st1.log ++ [LogEntry.removeOp segment.ring segment.edge x2]⟩)
      else .ok (r1, st1)
    match step2 with
    | .error e => .error e
    | .ok (r, st2) =>
      if r then
        let ab := (getNbr st2 key).1
        let be := (getNbr st2 key).2
        let nbr1 :=
          match ab with
          | some a => nbrUpdate (a.ring, a.edge) (fun p => (p.1, be)) st2.nbr
          | none => st2.nbr
        let nbr2 :=
          match be with
          | some b => nbrUpdate (b.ring, b.edge) (fun p => (ab, p.2)) nbr1
          | none => nbr1
        .ok ⟨st2.compX, st2.tree, nbr2,
          st2.registry.filter (fun e => e.1 ≠ key), st2.log⟩
      else .ok st2

end SweepLine

/-- Modelled from the spec: for every edge of a ring the event queue emits
one Left event at the edge's XY-smaller endpoint and one Right event at the
larger, tagged with (ringId, edgeId) (spec, section 4.2). -/
def ringEvents (ringIdx : Nat) (ls : LineString) : List Event :=
  (List.range ls.points.length).foldr
    (fun e acc =>
      let point1 := ls.points.getD e ⟨0, 0⟩
      let point2 := ls.points.getD ((e + 1) % ls.points.length) ⟨0, 0⟩
      let lr := if SweepLine.xyOrder point1 point2 < 0 then (point1, point2)
                else (point2, point1)
      ⟨lr.1, ringIdx, e, EventType.left⟩ :: ⟨lr.2, ringIdx, e, EventType.right⟩ :: acc)
    []

/-- Events of all rings, generated ring by ring and edge by edge. -/
def allEvents : List LineString → Nat → List Event
  | [], _ => []
  | r :: rs, i => ringEvents i r ++ allEvents rs (i + 1)

/-- Strict order on events: primarily by point x, secondarily by point y. -/
def eventLt (a b : Event) : Bool :=
  a.point.x < b.point.x ∨ (a.point.x = b.point.x ∧ a.point.y < b.point.y)

/-- Stable insertion of an event into an already ordered list: the event
goes after every event it does not strictly precede. -/
def insertEvent (e : Event) : List Event → List Event
  | [] => [e]
  | h :: t => if eventLt e h then e :: h :: t else h :: insertEvent e t

/-- Stable sort of the events by (x, y). -/
def sortEvents (l : List Event) : List Event :=
  l.foldl (fun acc e => insertEvent e acc) []

/-- Modelled from the spec: the EventQueue (not among the provided sources)
sorts the multiset of all events primarily by point x, secondarily by point
y (spec, section 4.2).  The tie-break between events with equal (x, y) is
left open by the spec; the model fixes it deterministically by keeping the
generation order (ring ascending, edge ascending, Left before Right for one
edge), i.e. a stable sort. -/
def eventQueue (rings : List LineString) : List Event :=
  sortEvents (allEvents rings 0)

/-- One transition of the sweep controller (the event loop body of
ShamosHoey.simplePolygonLineStrings): a Left event inserts the segment and
tests it against its below and above neighbors; a Right event relocates the
segment, tests its above neighbor against its below neighbor, and removes
it.  Returns false when the polygon was found not simple. -/
def sweepStep (rings : List LineString) (st : SweepState) (event : Event) :
    Except SFException (Bool × SweepState) :=
  match event.type with
  | EventType.left =>
    match SweepLine.add rings st event with
    | .error e => .error e
    | .ok (segment, st') =>
      let ab := (getNbr st' (segment.ring, segment.edge)).1
      let be := (getNbr st' (segment.ring, segment.edge)).2
      if SweepLine.intersect rings (some segment) be ∨
          SweepLine.intersect rings (some segment) ab then
        .ok (false, st')
      else .ok (true, st')
  | EventType.right =>
    match SweepLine.find st event with
    | .error e => .error e
    | .ok segment =>
      let ab := (getNbr st (segment.ring, segment.edge)).1
      let be := (getNbr st (segment.ring, segment.edge)).2
      if SweepLine.intersect rings ab be then .ok (false, st)
      else
        match SweepLine.remove st segment with
        | .error e => .error e
        | .ok st' => .ok (true, st')

/-- The sweep loop: consume the events while still simple; an exhausted
queue means the polygon is simple.  The final sweep state is returned with
the verdict. -/
def runSweep (rings : List LineString) :
    List Event → SweepState → Except SFException (Bool × SweepState)
  | [], st => .ok (true, st)
  | e :: es, st =>
    match sweepStep rings st e with
    | .error err => .error err
    | .ok (cont, st') => if cont then runSweep rings es st' else .ok (false, st')

/-- The ring preprocessing step of ShamosHoey.simplePolygonLineStrings on
one ring's points: when at least three points are present and the first and
last point agree on x and y, the last point is dropped. -/
def dropClosing (ps : List Pt) : List Pt :=
  if 3 ≤ ps.length ∧ (ps.headD ⟨0, 0⟩).x = (ps.getLastD ⟨0, 0⟩).x ∧
      (ps.headD ⟨0, 0⟩).y = (ps.getLastD ⟨0, 0⟩).y then
    ps.dropLast
  else ps

/-- The hole checks of ShamosHoey.simplePolygonLineStrings for ring index
i > 0: the hole's first point must lie inside the exterior ring (the
original ring 0), and for every earlier hole j, neither may the current
first point lie inside hole j's original points nor hole j's first point
inside the current copied points.  The point-in-ring primitive pir is the
externally supplied GeometryUtils test (spec, sections 1 and 4.1), passed
as a parameter. -/
def holeChecksFail (pir : Pt → List Pt → Bool) (orig : List LineString)
    (i : Nat) (cp : List Pt) : Bool :=
  let firstPoint := cp.headD ⟨0, 0⟩
  if !pir firstPoint (orig.headD ⟨[]⟩).points then true
  else
    (List.range i).any fun j =>
      decide (1 ≤ j) &&
        (pir firstPoint (orig.getD j ⟨[]⟩).points ||
          pir ((orig.getD j ⟨[]⟩).points.headD ⟨0, 0⟩) cp)

/-- The ring loop of ShamosHoey.simplePolygonLineStrings from ring index i
on: copy each ring dropping a duplicate closing point, fail (not simple,
returning none) when fewer than three points remain or, for a hole, when
the hole checks fail; otherwise collect the copies the sweep will run on. -/
def preprocessFrom (pir : Pt → List Pt → Bool) (orig : List LineString) :
    Nat → List LineString → Option (List LineString)
  | _, [] => some []
  | i, r :: rest =>
    let cp := dropClosing r.points
    if cp.length < 3 then none
    else if 0 < i ∧ holeChecksFail pir orig i cp = true then none
    else
      match preprocessFrom pir orig (i + 1) rest with
      | none => none
      | some copies => some (⟨cp⟩ :: copies)

namespace ShamosHoey

/-- ShamosHoey.simplePolygonLineStrings: an empty ring list is not simple;
otherwise preprocess the rings (any violation yields false without running
the sweep) and run the sweep over the event queue of the copies.  The
externally supplied point-in-ring primitive is a parameter.  A returned
.ok b is the boolean result of the source; .error models a thrown
SFException. -/
def simplePolygonLineStrings (pir : Pt → List Pt → Bool)
    (rings : List LineString) : Except SFException Bool :=
  if rings.length = 0 then .ok false
  else
    match preprocessFrom pir rings 0 rings with
    | none => .ok false
    | some copies => (runSweep copies (eventQueue copies) initState).map Prod.fst

/-- ShamosHoey.simplePolygonRingPoints: wrap each point ring in a
LineString and test the rings. -/
def simplePolygonRingPoints (pir : Pt → List Pt → Bool)
    (pointRings : List (List Pt)) : Except SFException Bool :=
  simplePolygonLineStrings pir (pointRings.map (fun ps => ⟨ps⟩))

end ShamosHoey

/-- Decidable equality of results, used to evaluate the pipeline on the
concrete inputs of the claims. -/
instance instDecidableEqExcept {ε α : Type} [DecidableEq ε] [DecidableEq α] :
    DecidableEq (Except ε α) := fun x y =>
  match x, y with
  | .error a, .error b =>
    if h : a = b then .isTrue (by rw [h]) else .isFalse (fun hc => h (by cases hc; rfl))
  | .error _, .ok _ => .isFalse (fun hc => Except.noConfusion hc)
  | .ok _, .error _ => .isFalse (fun hc => Except.noConfusion hc)
  | .ok a, .ok b =>
    if h : a = b then .isTrue (by rw [h]) else .isFalse (fun hc => h (by cases hc; rfl))

/-- Failure of the preprocessing checks at ring index i: too few points
after dropping the closing point, or (for a hole) failing hole checks. -/
def ringFails (pir : Pt → List Pt → Bool) (orig : List LineString) (i : Nat)
    (r : LineString) : Prop :=
  (dropClosing r.points).length < 3 ∨
    (0 < i ∧ holeChecksFail pir orig i (dropClosing r.points) = true)

/-- A point-in-ring primitive that always answers false; single-ring inputs
never consult the primitive, so any choice serves for them. -/
def pirFalse : Pt → List Pt → Bool := fun _ _ => false

/-- A concrete point-in-ring primitive answering whether the point's x is
below two; on the hole-placement scenario of the spec (unit square
exterior, hole anchored at (5,5)) it reports the exterior's corners inside
and the far hole anchor outside. -/
def pirXlt2 : Pt → List Pt → Bool := fun p _ => p.x < 2

/-- The post-preprocessing square ring, the ring copies the sweep runs on
for the concrete square scenario. -/
def sqCopies : List LineString := [⟨[⟨0, 0⟩, ⟨4, 0⟩, ⟨4, 4⟩, ⟨0, 4⟩]⟩]

/-- A concrete triangle ring on which a Right event arrives while the
comparator still holds the x of a later Left event. -/
def triCopies : List LineString := [⟨[⟨0, 0⟩, ⟨3, 0⟩, ⟨1, 2⟩]⟩]

/-- The first event of an empty sweep, used to exercise SweepLine.add. -/
def evA4 : Event := ⟨⟨0, 0⟩, 0, 0, EventType.left⟩

/-- The segment SweepLine.add creates for evA4 over an empty ring list. -/
def segA4 : Segment := ⟨0, 0, ⟨0, 0⟩, ⟨0, 0⟩⟩

/-- The state SweepLine.add returns for evA4 from the starting state. -/
def stA4 : SweepState :=
  ⟨some 0, [segA4], [((0, 0), (none, none))], [((0, 0), segA4)],
    [LogEntry.insertOp 0 0 (some 0)]⟩

/-- A segment whose left point x is 0, about to be removed while the
comparator holds x = 1. -/
def segB4 : Segment := ⟨2, 0, ⟨0, 0⟩, ⟨1, 2⟩⟩

/-- A sweep state holding segB4 with comparator x = 1. -/
def stB4 : SweepState :=
  ⟨some 1, [segB4], [((0, 2), (none, none))], [((0, 2), segB4)], []⟩

/-- The state SweepLine.remove returns for segB4 from stB4: the tree no
longer holds the segment, but the registry entry and neighbor record
survive, and the log shows the first removal attempt under x = 1. -/
def stB4' : SweepState :=
  ⟨some 0, [], [((0, 2), (none, none))], [((0, 2), segB4)],
    [LogEntry.removeOp 0 2 (some 1), LogEntry.removeOp 0 2 (some 0)]⟩

theorem qmul_eq (a b : ℚ) : qmul a b = a * b := by
  have had : (a.den : ℚ) ≠ 0 := by exact_mod_cast a.den_nz
  have hbd : (b.den : ℚ) ≠ 0 := by exact_mod_cast b.den_nz
  have ha : (a.num : ℚ) = a * a.den := (div_eq_iff had).mp (Rat.num_div_den a)
  have hb : (b.num : ℚ) = b * b.den := (div_eq_iff hbd).mp (Rat.num_div_den b)
  rw [qmul, Rat.divInt_eq_div]
  push_cast
  rw [div_eq_iff (mul_ne_zero had hbd), ha, hb]
  ring

theorem qadd_eq (a b : ℚ) : qadd a b = a + b := by
  have had : (a.den : ℚ) ≠ 0 := by exact_mod_cast a.den_nz
  have hbd : (b.den : ℚ) ≠ 0 := by exact_mod_cast b.den_nz
  have ha : (a.num : ℚ) = a * a.den := (div_eq_iff had).mp (Rat.num_div_den a)
  have hb : (b.num : ℚ) = b * b.den := (div_eq_iff hbd).mp (Rat.num_div_den b)
  rw [qadd, Rat.divInt_eq_div]
  push_cast
  rw [div_eq_iff (mul_ne_zero had hbd), ha, hb]
  ring

theorem qsub_eq (a b : ℚ) : qsub a b = a - b := by
  have had : (a.den : ℚ) ≠ 0 := by exact_mod_cast a.den_nz
  have hbd : (b.den : ℚ) ≠ 0 := by exact_mod_cast b.den_nz
  have ha : (a.num : ℚ) = a * a.den := (div_eq_iff had).mp (Rat.num_div_den a)
  have hb : (b.num : ℚ) = b * b.den := (div_eq_iff hbd).mp (Rat.num_div_den b)
  rw [qsub, Rat.divInt_eq_div]
  push_cast
  rw [div_eq_iff (mul_ne_zero had hbd), ha, hb]
  ring

theorem qdiv_eq (a b : ℚ) (hbne : b ≠ 0) : qdiv a b = a / b := by
  have had : (a.den : ℚ) ≠ 0 := by exact_mod_cast a.den_nz
  have hbd : (b.den : ℚ) ≠ 0 := by exact_mod_cast b.den_nz
  have hbn : (b.num : ℚ) ≠ 0 := by exact_mod_cast Rat.num_ne_zero.mpr hbne
  have ha : (a.num : ℚ) = a * a.den := (div_eq_iff had).mp (Rat.num_div_den a)
  have hb : (b.num : ℚ) = b * b.den := (div_eq_iff hbd).mp (Rat.num_div_den b)
  rw [qdiv, Rat.divInt_eq_div]
  push_cast
  rw [div_eq_div_iff (mul_ne_zero had hbn) hbne, ha, hb]
  ring

theorem createSegment_ring (rings : List LineString) (ev : Event) :
    (SweepLine.createSegment rings ev).ring = ev.ring := by
  simp only [SweepLine.createSegment]
  split <;> rfl

theorem createSegment_edge (rings : List LineString) (ev : Event) :
    (SweepLine.createSegment rings ev).edge = ev.edge := by
  simp only [SweepLine.createSegment]
  split <;> rfl

theorem preprocessFrom_none (pir : Pt → List Pt → Bool) (orig : List LineString) :
    ∀ (k : Nat) (rest : List LineString) (j : Nat), j < rest.length →
      ringFails pir orig (k + j) (rest.getD j ⟨[]⟩) →
      preprocessFrom pir orig k rest = none := by
  intro k rest
  induction rest generalizing k with
  | nil => intro j hj; simp at hj
  | cons r rest ih =>
    intro j hj hfail
    cases j with
    | zero =>
      rw [List.getD_cons_zero, Nat.add_zero] at hfail
      simp only [preprocessFrom]
      by_cases h3 : (dropClosing r.points).length < 3
      · rw [if_pos h3]
      · rw [if_neg h3]
        rcases hfail with hf | hf
        · exact absurd hf h3
        · rw [if_pos hf]
    | succ j' =>
      simp only [preprocessFrom]
      by_cases h3 : (dropClosing r.points).length < 3
      · rw [if_pos h3]
      · rw [if_neg h3]
        by_cases hc : 0 < k ∧ holeChecksFail pir orig k (dropClosing r.points) = true
        · rw [if_pos hc]
        · rw [if_neg hc]
          have hrec : preprocessFrom pir orig (k + 1) rest = none := by
            apply ih (k + 1) j'
            · simpa using hj
            · rw [List.getD_cons_succ] at hfail
              have he : k + 1 + j' = k + (j' + 1) := by omega
              rw [he]
              exact hfail
          rw [hrec]

theorem dropClosing_of_ne (p : Pt) (rest : List Pt)
    (h : ¬(p.x = ((p :: rest).getLastD ⟨0, 0⟩).x ∧
           p.y = ((p :: rest).getLastD ⟨0, 0⟩).y)) :
    dropClosing (p :: rest) = p :: rest := by
  unfold dropClosing
  rw [if_neg]
  intro hc
  exact h ⟨hc.2.1, hc.2.2⟩

theorem dropClosing_concat (p : Pt) (rest : List Pt) (hne : rest ≠ []) :
    dropClosing ((p :: rest) ++ [p]) = p :: rest := by
  have hgl : ((p :: rest) ++ [p]).getLastD (⟨0, 0⟩ : Pt) = p :=
    List.getLastD_concat _ _ _
  unfold dropClosing
  rw [if_pos]
  · rw [List.dropLast_concat]
  · refine ⟨?_, ?_, ?_⟩
    · simp only [List.length_append, List.length_cons, List.length_singleton]
      have := List.length_pos.mpr hne
      omega
    · rw [hgl]; rfl
    · rw [hgl]; rfl

theorem simplePolygon_single (pir : Pt → List Pt → Bool) (ps : List Pt) :
    ShamosHoey.simplePolygonLineStrings pir [⟨ps⟩] =
      if (dropClosing ps).length < 3 then .ok false
      else (runSweep [⟨dropClosing ps⟩] (eventQueue [⟨dropClosing ps⟩]) initState).map
        Prod.fst := by
  unfold ShamosHoey.simplePolygonLineStrings
  rw [if_neg (by simp)]
  simp only [preprocessFrom]
  by_cases h3 : (dropClosing ps).length < 3
  · rw [if_pos h3, if_pos h3]
  · rw [if_neg h3, if_neg h3, if_neg (fun hc => absurd hc.1 (lt_irrefl 0))]

/-- C1: the simplicity check on the single self-intersecting bowtie ring
[(0,0),(4,4),(4,0),(0,4),(0,0)] returns false, for any point-in-ring
primitive (single-ring inputs never consult it). -/
theorem claim1_bowtie_not_simple (pir : Pt → List Pt → Bool) :
    ShamosHoey.simplePolygonRingPoints pir
      [[⟨0, 0⟩, ⟨4, 4⟩, ⟨4, 0⟩, ⟨0, 4⟩, ⟨0, 0⟩]] = .ok false := by
  rfl

/-- C2: the simplicity check on the single axis-aligned square ring
[(0,0),(4,0),(4,4),(0,4),(0,0)], which contains two vertical edges,
returns true, for any point-in-ring primitive. -/
theorem claim2_square_simple (pir : Pt → List Pt → Bool) :
    ShamosHoey.simplePolygonRingPoints pir
      [[⟨0, 0⟩, ⟨4, 0⟩, ⟨4, 4⟩, ⟨0, 4⟩, ⟨0, 0⟩]] = .ok true := by
  rfl

/-- C3: contrary to the claim, SweepLine.remove never splices the
above/below neighbors and never deletes the Segment Registry entry: after
the full sweep of the simple square (whose four Right events are all
processed while still running) the verdict is simple, yet the registry
still holds all four (ring, edge) entries, and the segment of edge 2 still
names the segment of edge 3 as its above neighbor although edge 3's
segment was removed at the first Right event.  The source's retry guard is
inverted (it retries removal after success, and a second removal of the
same value always fails), so the splice and deletion block is
unreachable. -/
theorem claim3_remove_keeps_registry_and_nbrs :
    (runSweep sqCopies (eventQueue sqCopies) initState).map
        (fun r => (r.1, r.2.registry.map Prod.fst, (getNbr r.2 (0, 2)).1)) =
      .ok (true, [(0, 1), (0, 2), (0, 3), (0, 0)],
        some ⟨3, 0, ⟨0, 0⟩, ⟨0, 4⟩⟩) := by
  decide

/-- C4, counterexample: in the sweep of the triangle (0,0),(3,0),(1,2) the
segment of edge 2 (left point x = 0) is removed while the comparator still
holds x = 1 from the preceding Left event, so a structural tree removal
attempt runs with comparator x different from segment.leftPoint.x. -/
theorem claim4_counterexample :
    (runSweep triCopies (eventQueue triCopies) initState).map
        (fun r => (r.1, decide (LogEntry.removeOp 0 2 (some 1) ∈ r.2.log))) =
      .ok (true, true) ∧
    (SweepLine.createSegment triCopies ⟨⟨1, 2⟩, 0, 2, EventType.right⟩).leftPoint.x = 0 ∧
    (1 : ℚ) ≠ 0 := by
  refine ⟨by decide, by decide, by decide⟩

/-- C4, amended: on Left-event insertion the tree insert runs with
comparator x equal to the event point's x; on removal the first tree
removal attempt runs under the comparator x already in effect from the
most recent prior operation, and only the retry attempt (performed after a
successful first removal) runs with comparator x = segment.leftPoint.x. -/
theorem claim4_amended :
    (∀ (rings : List LineString) (st : SweepState) (ev : Event) (seg : Segment)
        (st' : SweepState), SweepLine.add rings st ev = .ok (seg, st') →
        st'.log = st.log ++ [LogEntry.insertOp ev.ring ev.edge (some ev.point.x)]) ∧
    (∀ (st : SweepState) (seg : Segment) (st' : SweepState),
        SweepLine.remove st seg = .ok st' →
        st'.log = st.log ++ [LogEntry.removeOp seg.ring seg.edge st.compX] ∨
        st'.log = st.log ++ [LogEntry.removeOp seg.ring seg.edge st.compX,
          LogEntry.removeOp seg.ring seg.edge (some seg.leftPoint.x)]) := by
  constructor
  · intro rings st ev seg st' h
    simp only [SweepLine.add] at h
    split at h
    · exact absurd h (by simp)
    · simp only [Except.ok.injEq, Prod.mk.injEq] at h
      rw [← h.2]
      simp [createSegment_ring, createSegment_edge]
  · intro st seg st' h
    simp only [SweepLine.remove] at h
    cases hr : treeRemove st.compX seg st.tree with
    | error e => rw [hr] at h; exact absurd h (by simp)
    | ok p =>
      obtain ⟨r1, tree1⟩ := p
      rw [hr] at h
      cases r1 with
      | false =>
        simp only [Bool.false_eq_true, if_false] at h
        simp only [Except.ok.injEq] at h
        left
        rw [← h]
      | true =>
        simp only [if_true] at h
        cases hr2 : treeRemove (some seg.leftPoint.x) seg tree1 with
        | error e => rw [hr2] at h; exact absurd h (by simp)
        | ok p2 =>
          obtain ⟨r2, tree2⟩ := p2
          rw [hr2] at h
          cases r2 with
          | false =>
            simp only [Bool.false_eq_true, if_false] at h
            simp only [Except.ok.injEq] at h
            right
            rw [← h]
            simp
          | true =>
            simp only [if_true] at h
            simp only [Except.ok.injEq] at h
            right
            rw [← h]
            simp

/-- Witness for the amended C4: a concrete insertion logs the event point's
x, and a concrete removal under comparator x = 1 of a segment with left
point x = 0 logs the first attempt under x = 1 and the retry under x = 0. -/
theorem claim4_amended_witness :
    stA4.log = initState.log ++ [LogEntry.insertOp 0 0 (some 0)] ∧
    (stB4'.log = stB4.log ++ [LogEntry.removeOp 0 2 (some 1)] ∨
      stB4'.log = stB4.log ++ [LogEntry.removeOp 0 2 (some 1),
        LogEntry.removeOp 0 2 (some 0)]) :=
  ⟨claim4_amended.1 [] initState evA4 segA4 stA4 (by decide),
    claim4_amended.2 stB4 segB4 stB4' (by decide)⟩

/-- C5: whenever some ring keeps fewer than three points after dropping a
literal duplicate closing point, the simplicity check returns false and
does not throw (the result is .ok false, never .error). -/
theorem claim5_too_few_points_not_simple (pir : Pt → List Pt → Bool)
    (rings : List LineString)
    (h : ∃ r ∈ rings, (dropClosing r.points).length < 3) :
    ShamosHoey.simplePolygonLineStrings pir rings = .ok false := by
  obtain ⟨r, hmem, hlen⟩ := h
  obtain ⟨j, hj, hget⟩ := List.mem_iff_getElem.mp hmem
  have hnone : preprocessFrom pir rings 0 rings = none := by
    apply preprocessFrom_none pir rings 0 rings j hj
    rw [Nat.zero_add]
    left
    rw [List.getD_eq_getElem rings ⟨[]⟩ hj, hget]
    exact hlen
  have hne : rings.length ≠ 0 := by
    have := List.length_pos_of_mem hmem
    omega
  unfold ShamosHoey.simplePolygonLineStrings
  rw [if_neg hne, hnone]

/-- Witness for C5 at the two-point ring [(0,0),(1,1)] of the claim. -/
theorem claim5_witness :
    (∃ r ∈ [(⟨[⟨0, 0⟩, ⟨1, 1⟩]⟩ : LineString)], (dropClosing r.points).length < 3) ∧
    ShamosHoey.simplePolygonLineStrings pirFalse [⟨[⟨0, 0⟩, ⟨1, 1⟩]⟩] = .ok false :=
  ⟨by decide, claim5_too_few_points_not_simple pirFalse _ (by decide)⟩

/-- C6: when a hole ring's first point (after closing-point removal) is not
inside the exterior ring according to the supplied point-in-ring primitive,
the simplicity check returns false, regardless of the hole's own shape. -/
theorem claim6_hole_outside_not_simple (pir : Pt → List Pt → Bool)
    (rings : List LineString) (i : Nat) (h0 : 0 < i) (hi : i < rings.length)
    (h3 : pir ((dropClosing (rings.getD i ⟨[]⟩).points).headD ⟨0, 0⟩)
        (rings.headD ⟨[]⟩).points = false) :
    ShamosHoey.simplePolygonLineStrings pir rings = .ok false := by
  have hnone : preprocessFrom pir rings 0 rings = none := by
    apply preprocessFrom_none pir rings 0 rings i hi
    rw [Nat.zero_add]
    by_cases hlen : (dropClosing (rings.getD i ⟨[]⟩).points).length < 3
    · left; exact hlen
    · right
      refine ⟨h0, ?_⟩
      simp only [holeChecksFail]
      rw [h3]
      rfl
  have hne : rings.length ≠ 0 := by omega
  unfold ShamosHoey.simplePolygonLineStrings
  rw [if_neg hne, hnone]

/-- Witness for C6 on the spec's scenario: unit-square exterior with a hole
anchored at (5,5), under a concrete primitive that places (5,5) outside. -/
theorem claim6_witness :
    (0 < 1 ∧ 1 < ([⟨[⟨0, 0⟩, ⟨1, 0⟩, ⟨1, 1⟩, ⟨0, 1⟩]⟩,
        ⟨[⟨5, 5⟩, ⟨6, 5⟩, ⟨6, 6⟩]⟩] : List LineString).length ∧
      pirXlt2 ((dropClosing (([⟨[⟨0, 0⟩, ⟨1, 0⟩, ⟨1, 1⟩, ⟨0, 1⟩]⟩,
        ⟨[⟨5, 5⟩, ⟨6, 5⟩, ⟨6, 6⟩]⟩] : List LineString).getD 1 ⟨[]⟩).points).headD ⟨0, 0⟩)
        (([⟨[⟨0, 0⟩, ⟨1, 0⟩, ⟨1, 1⟩, ⟨0, 1⟩]⟩,
        ⟨[⟨5, 5⟩, ⟨6, 5⟩, ⟨6, 6⟩]⟩] : List LineString).headD ⟨[]⟩).points = false) ∧
    ShamosHoey.simplePolygonLineStrings pirXlt2
      [⟨[⟨0, 0⟩, ⟨1, 0⟩, ⟨1, 1⟩, ⟨0, 1⟩]⟩, ⟨[⟨5, 5⟩, ⟨6, 5⟩, ⟨6, 6⟩]⟩] = .ok false :=
  ⟨⟨by decide, by decide, by decide⟩,
    claim6_hole_outside_not_simple pirXlt2 _ 1 (by decide) (by decide) (by decide)⟩

/-- C7, counterexample: the claim fails on the already closed square ring
[(0,0),(4,0),(4,4),(0,4),(0,0)]: alone it is reported simple, but with its
first point appended once more the preprocessing only removes one closing
duplicate, the leftover duplicate creates a degenerate last edge, the edges
meeting at (0,0) are no longer cyclically consecutive, and their shared
endpoint is reported as a self-intersection. -/
theorem claim7_counterexample :
    ShamosHoey.simplePolygonRingPoints pirFalse
        [[⟨0, 0⟩, ⟨4, 0⟩, ⟨4, 4⟩, ⟨0, 4⟩, ⟨0, 0⟩]] = .ok true ∧
    ShamosHoey.simplePolygonRingPoints pirFalse
        [[⟨0, 0⟩, ⟨4, 0⟩, ⟨4, 4⟩, ⟨0, 4⟩, ⟨0, 0⟩] ++ [⟨0, 0⟩]] = .ok false := by
  refine ⟨by rfl, by rfl⟩

/-- C7, amended: appending the first point changes nothing for every
nonempty ring whose first and last point do not already agree on x and y
(for an already closed ring the appended duplicate survives preprocessing
and can change the verdict, as the counterexample shows). -/
theorem claim7_amended (pir : Pt → List Pt → Bool) (p : Pt) (rest : List Pt)
    (h : ¬(p.x = ((p :: rest).getLastD ⟨0, 0⟩).x ∧
           p.y = ((p :: rest).getLastD ⟨0, 0⟩).y)) :
    ShamosHoey.simplePolygonRingPoints pir [p :: rest] =
      ShamosHoey.simplePolygonRingPoints pir [(p :: rest) ++ [p]] := by
  have hne : rest ≠ [] := by
    intro hnil
    subst hnil
    simp at h
  unfold ShamosHoey.simplePolygonRingPoints
  simp only [List.map]
  rw [simplePolygon_single, simplePolygon_single, dropClosing_of_ne p rest h,
    dropClosing_concat p rest hne]

/-- Witness for the amended C7 on an open triangle ring. -/
theorem claim7_amended_witness :
    ¬((⟨0, 0⟩ : Pt).x = (((⟨0, 0⟩ : Pt) :: [⟨3, 0⟩, ⟨0, 3⟩]).getLastD ⟨0, 0⟩).x ∧
      (⟨0, 0⟩ : Pt).y = (((⟨0, 0⟩ : Pt) :: [⟨3, 0⟩, ⟨0, 3⟩]).getLastD ⟨0, 0⟩).y) ∧
    ShamosHoey.simplePolygonRingPoints pirFalse [⟨0, 0⟩ :: [⟨3, 0⟩, ⟨0, 3⟩]] =
      ShamosHoey.simplePolygonRingPoints pirFalse [(⟨0, 0⟩ :: [⟨3, 0⟩, ⟨0, 3⟩]) ++ [⟨0, 0⟩]] :=
  ⟨by decide, claim7_amended pirFalse ⟨0, 0⟩ [⟨3, 0⟩, ⟨0, 3⟩] (by decide)⟩

/-- C8: two segments of the same ring whose edge indices are cyclically
consecutive with respect to that ring's point count never intersect
according to SweepLine.intersect, so consecutive edges sharing a vertex
never cause a not-simple verdict solely from that shared vertex. -/
theorem claim8_consecutive_edges_no_intersect (rings : List LineString)
    (s1 s2 : Segment) (hr : s1.ring = s2.ring)
    (hn : (rings.getD s1.ring ⟨[]⟩).numPoints ≠ 0)
    (hc : (s1.edge + 1) % (rings.getD s1.ring ⟨[]⟩).numPoints = s2.edge ∨
          s1.edge = (s2.edge + 1) % (rings.getD s1.ring ⟨[]⟩).numPoints) :
    SweepLine.intersect rings (some s1) (some s2) = false := by
  simp only [SweepLine.intersect]
  split
  · rfl
  · rename_i hfalse
    exfalso
    apply hfalse
    rw [decide_eq_true_eq]
    exact ⟨hr, hn, hc⟩

/-- Witness for C8 at two crossing-free consecutive square edges. -/
theorem claim8_witness :
    ((0 : Nat) = 0 ∧ (sqCopies.getD 0 ⟨[]⟩).numPoints ≠ 0 ∧
      ((0 + 1) % (sqCopies.getD 0 ⟨[]⟩).numPoints = 1 ∨
        0 = (1 + 1) % (sqCopies.getD 0 ⟨[]⟩).numPoints)) ∧
    SweepLine.intersect sqCopies (some ⟨0, 0, ⟨0, 0⟩, ⟨4, 0⟩⟩)
      (some ⟨1, 0, ⟨4, 0⟩, ⟨4, 4⟩⟩) = false :=
  ⟨⟨by decide, by decide, by decide⟩,
    claim8_consecutive_edges_no_intersect sqCopies ⟨0, 0, ⟨0, 0⟩, ⟨4, 0⟩⟩
      ⟨1, 0, ⟨4, 0⟩, ⟨4, 4⟩⟩ (by decide) (by decide) (by decide)⟩

/-- C9: querying the ordering comparator with no current sweep x set yields
the fatal SFException "X value not set" on the error channel, for every
pair of segments; it is never mapped to a comparison result. -/
theorem claim9_compare_unset_x_throws (s1 s2 : Segment) :
    SegmentComparator.compare none s1 s2 = .error ⟨"X value not set"⟩ := by
  rfl

/-- C10: the simplicity check on an empty ring list returns false rather
than reporting the input vacuously simple or throwing. -/
theorem claim10_empty_rings_not_simple (pir : Pt → List Pt → Bool) :
    ShamosHoey.simplePolygonLineStrings pir [] = .ok false := by
  rfl

end SF
